import Mathlib

/-!
Shallow embedding of the Cheshire Cat Document Manager front-end
(`src/document_manager.js`, variant "v2", and `src/unnamed/part_000`,
variant "v4.0").  Pure data transformations (aggregation, filtering,
sorting, info-panel statistics) are translated as Lean functions; the
stateful confirm/execute flow is translated as explicit state-passing
functions over a state record, with the suspension point of each
`await fetch` made explicit (a `…Start` function up to the request, a
`…Finish` function from the response onwards).
-/

/-- A chunk record as consumed by the UI: `source`, optional
`chunk_index`, `page_content_length`, optional `preview`, and the
`when` timestamp used for recency.  (`when` is named `whenTs` here.) -/
structure Chunk where
  source : String
  chunk_index : Option Int
  page_content_length : Nat
  preview : Option String
  whenTs : Int
deriving DecidableEq

/-- The aggregated per-source record built by `renderDocuments`
(`document_manager.js` lines 97-106):
`{ source, chunks: 0, totalSize: 0, lastUpdate: 0, chunksList: [] }`
updated once per chunk.  `renderList` (`part_000` lines 170-178)
builds the same grouping minus the `lastUpdate` field. -/
structure AggDoc where
  source : String
  chunks : Nat
  totalSize : Nat
  lastUpdate : Int
  chunksList : List Chunk
deriving DecidableEq

/-- The freshly-initialised accumulator entry
`{ source: doc.source, chunks: 0, totalSize: 0, lastUpdate: 0, chunksList: [] }`. -/
def emptyAgg (src : String) : AggDoc :=
  { source := src, chunks := 0, totalSize := 0, lastUpdate := 0, chunksList := [] }

/-- One update step of the reduce body (`document_manager.js` lines 101-104):
`chunks++; totalSize += len; lastUpdate = max(lastUpdate, when); chunksList.push(doc)`. -/
def bump (g : AggDoc) (c : Chunk) : AggDoc :=
  { g with
    chunks := g.chunks + 1
    totalSize := g.totalSize + c.page_content_length
    lastUpdate := max g.lastUpdate c.whenTs
    chunksList := g.chunksList ++ [c] }

/-- One iteration of the `reduce` over the chunk list: create the entry for
`c.source` if absent, then bump it.  The accumulator object is modelled as an
association list in key-insertion order (JS objects enumerate string keys in
insertion order; the sources here are file names / URLs, not array indices). -/
def step (acc : List AggDoc) (c : Chunk) : List AggDoc :=
  if acc.any (fun g => g.source == c.source) then
    acc.map (fun g => if g.source == c.source then bump g c else g)
  else
    acc ++ [bump (emptyAgg c.source) c]

/-- `aggregate`: the grouping reduce of `renderDocuments`
(`document_manager.js` lines 97-108), yielding `Object.values(aggregatedDocs)`. -/
def aggregate (cs : List Chunk) : List AggDoc := cs.foldl step []

example :
    aggregate
      [⟨"a.pdf", none, 100, none, 1⟩, ⟨"a.pdf", none, 200, none, 2⟩,
       ⟨"b.txt", none, 50, none, 3⟩] =
      [{ source := "a.pdf", chunks := 2, totalSize := 300, lastUpdate := 2,
         chunksList := [⟨"a.pdf", none, 100, none, 1⟩, ⟨"a.pdf", none, 200, none, 2⟩] },
       { source := "b.txt", chunks := 1, totalSize := 50, lastUpdate := 3,
         chunksList := [⟨"b.txt", none, 50, none, 3⟩] }] := by
  decide

/-- The `bump` update leaves the `source` key unchanged. -/
theorem bump_source (g : AggDoc) (c : Chunk) : (bump g c).source = g.source := rfl

/-- Finding by source commutes with the bump-matching map, because the map
preserves every entry's source. -/
theorem find?_map_bumpIf (acc : List AggDoc) (c : Chunk) (src : String) :
    (acc.map (fun g => if g.source == c.source then bump g c else g)).find?
        (fun g => g.source == src)
      = (acc.find? (fun g => g.source == src)).map
          (fun g => if g.source == c.source then bump g c else g) := by
  induction acc with
  | nil => rfl
  | cons a t ih =>
    have hsrc : ((if a.source == c.source then bump a c else a).source == src)
        = (a.source == src) := by
      by_cases h : a.source == c.source <;> simp [h, bump]
    rw [List.map_cons, List.find?_cons, List.find?_cons, hsrc]
    cases h : (a.source == src)
    · simp only []
      exact ih
    · rfl

/-- `find?` over an appended singleton. -/
theorem find?_concat (p : AggDoc → Bool) (l : List AggDoc) (x : AggDoc) :
    (l ++ [x]).find? p =
      match l.find? p with
      | some g => some g
      | none => if p x then some x else none := by
  induction l with
  | nil => simp [List.find?_cons]; cases h : p x <;> simp [h]
  | cons a t ih =>
    simp only [List.cons_append, List.find?_cons]
    cases h : p a <;> simp [ih]

/-- `any` agrees with `find?.isSome`. -/
theorem any_eq_find?_isSome (p : AggDoc → Bool) (l : List AggDoc) :
    l.any p = (l.find? p).isSome := by
  induction l with
  | nil => rfl
  | cons a t ih =>
    simp only [List.any_cons, List.find?_cons]
    cases h : p a <;> simp [ih]

/-- Effect of a single `step` on the entry found for a given source. -/
theorem find?_step (acc : List AggDoc) (c : Chunk) (src : String) :
    (step acc c).find? (fun g => g.source == src) =
      if c.source == src then
        match acc.find? (fun g => g.source == src) with
        | some g => some (bump g c)
        | none => some (bump (emptyAgg c.source) c)
      else acc.find? (fun g => g.source == src) := by
  unfold step
  by_cases hany : acc.any (fun g => g.source == c.source)
  · rw [if_pos hany, find?_map_bumpIf]
    by_cases hc : c.source = src
    · subst hc
      rw [any_eq_find?_isSome] at hany
      cases hfind : acc.find? (fun g => g.source == c.source) with
      | none => rw [hfind] at hany; simp at hany
      | some g =>
        have hg : g.source = c.source := by
          have := List.find?_some hfind
          simpa using this
        simp [hfind, hg]
    · have hcb : (c.source == src) = false := by simpa using hc
      cases hfind : acc.find? (fun g => g.source == src) with
      | none => simp [hfind, hcb]
      | some g =>
        have hg : g.source = src := by
          have := List.find?_some hfind
          simpa using this
        have hgc : (g.source == c.source) = false := by
          rw [hg]
          simpa using fun h => hc h.symm
        simp [hfind, hcb, hgc]
        intro h
        exact absurd h (by simpa using hgc)
  · rw [if_neg hany, find?_concat]
    by_cases hc : c.source = src
    · subst hc
      cases hfind : acc.find? (fun g => g.source == c.source) with
      | none => simp [hfind, bump, emptyAgg]
      | some g =>
        exfalso
        apply hany
        rw [any_eq_find?_isSome, hfind]
        rfl
    · have hcb : (c.source == src) = false := by simpa using hc
      have hx : ((bump (emptyAgg c.source) c).source == src) = false := by
        simpa [bump, emptyAgg] using hc
      cases hfind : acc.find? (fun g => g.source == src) with
      | none => simp [hfind, hx, hcb]
      | some g => simp [hfind, hcb]

/-- Characterisation of the whole reduce: the entry found for `src` after
folding `step` is the `bump`-fold of the chunks with that source, continuing
from whatever entry the accumulator already held. -/
theorem find?_foldl_step (cs : List Chunk) (acc : List AggDoc) (src : String) :
    (cs.foldl step acc).find? (fun g => g.source == src) =
      match acc.find? (fun g => g.source == src) with
      | some g => some ((cs.filter (fun c => c.source == src)).foldl bump g)
      | none =>
        match cs.filter (fun c => c.source == src) with
        | [] => none
        | d :: ds => some ((d :: ds).foldl bump (emptyAgg src)) := by
  induction cs generalizing acc with
  | nil =>
    cases hfind : acc.find? (fun g => g.source == src) <;> simp [hfind]
  | cons c cs ih =>
    rw [List.foldl_cons, ih]
    rw [find?_step]
    by_cases hc : c.source = src
    · subst hc
      have hfilter : (c :: cs).filter (fun d => d.source == c.source)
          = c :: cs.filter (fun d => d.source == c.source) := by
        simp [List.filter_cons]
      cases hfind : acc.find? (fun g => g.source == c.source) with
      | none => simp [hfilter]
      | some g => simp [hfilter]
    · have hcb : (c.source == src) = false := by simpa using hc
      have hfilter : (c :: cs).filter (fun d => d.source == src)
          = cs.filter (fun d => d.source == src) := by
        simp [List.filter_cons, hcb]
      simp [hcb, hfilter]

/-- A `step` either leaves the key set unchanged (existing source) or appends
the new source at the end, mirroring JS object key-insertion order. -/
theorem map_source_step (acc : List AggDoc) (c : Chunk) :
    (step acc c).map (fun g => g.source) =
      if acc.any (fun g => g.source == c.source) then acc.map (fun g => g.source)
      else acc.map (fun g => g.source) ++ [c.source] := by
  unfold step
  by_cases hany : acc.any (fun g => g.source == c.source)
  · rw [if_pos hany, if_pos hany, List.map_map]
    congr 1
    funext g
    by_cases h : g.source = c.source <;> simp [h, bump]
  · rw [if_neg hany, if_neg hany]
    simp [bump, emptyAgg]

/-- The membership test used by `step` is exactly membership of the source in
the current key set. -/
theorem any_source_iff (acc : List AggDoc) (s : String) :
    acc.any (fun g => g.source == s) = true ↔ s ∈ acc.map (fun g => g.source) := by
  simp [List.any_eq_true, List.mem_map]

/-- Folding `step` keeps the key set duplicate-free and makes it the set of
sources seen so far. -/
theorem sources_foldl_step (cs : List Chunk) (acc : List AggDoc)
    (hn : (acc.map (fun g => g.source)).Nodup) :
    ((cs.foldl step acc).map (fun g => g.source)).Nodup
    ∧ (∀ s, s ∈ (cs.foldl step acc).map (fun g => g.source) ↔
        s ∈ acc.map (fun g => g.source) ∨ s ∈ cs.map (fun c => c.source)) := by
  induction cs generalizing acc with
  | nil => simp [hn]
  | cons c cs ih =>
    rw [List.foldl_cons]
    by_cases hany : acc.any (fun g => g.source == c.source)
    · have hkeys : (step acc c).map (fun g => g.source) = acc.map (fun g => g.source) := by
        rw [map_source_step, if_pos hany]
      have hmem : c.source ∈ acc.map (fun g => g.source) := (any_source_iff acc c.source).1 hany
      obtain ⟨h1, h2⟩ := ih (step acc c) (by rw [hkeys]; exact hn)
      refine ⟨h1, fun s => ?_⟩
      rw [h2 s, hkeys]
      constructor
      · rintro (h | h)
        · exact Or.inl h
        · exact Or.inr (by simp [h])
      · rintro (h | h)
        · exact Or.inl h
        · rcases List.mem_map.1 h with ⟨d, hd, hds⟩
          rcases List.mem_cons.1 hd with hdc | hdcs
          · subst hdc; exact Or.inl (hds ▸ hmem)
          · exact Or.inr (List.mem_map.2 ⟨d, hdcs, hds⟩)
    · have hkeys : (step acc c).map (fun g => g.source)
          = acc.map (fun g => g.source) ++ [c.source] := by
        rw [map_source_step, if_neg hany]
      have hnotmem : c.source ∉ acc.map (fun g => g.source) := by
        intro h
        exact hany ((any_source_iff acc c.source).2 h)
      have hn' : ((step acc c).map (fun g => g.source)).Nodup := by
        rw [hkeys]
        exact List.Nodup.append hn (List.nodup_singleton _)
          (by simpa [List.disjoint_singleton] using hnotmem)
      obtain ⟨h1, h2⟩ := ih (step acc c) hn'
      refine ⟨h1, fun s => ?_⟩
      rw [h2 s, hkeys]
      simp [List.mem_append, or_assoc]

/-- In a list whose key set is duplicate-free, each element is what `find?`
returns for its own source. -/
theorem find?_eq_self_of_nodup (l : List AggDoc)
    (hn : (l.map (fun g => g.source)).Nodup) (g : AggDoc) (hg : g ∈ l) :
    l.find? (fun x => x.source == g.source) = some g := by
  induction l with
  | nil => cases hg
  | cons a t ih =>
    rw [List.map_cons, List.nodup_cons] at hn
    rcases List.mem_cons.1 hg with h | h
    · subst h
      rw [List.find?_cons]
      simp
    · have hne : (a.source == g.source) = false := by
        have : g.source ∈ t.map (fun x => x.source) := List.mem_map.2 ⟨g, h, rfl⟩
        have := fun he : a.source = g.source => hn.1 (he ▸ this)
        simpa using this
      rw [List.find?_cons, hne]
      exact ih hn.2 h

/-- Closed form of the inner `bump` fold: counts, sizes, recency and the
chunk sequence accumulate pointwise. -/
theorem foldl_bump_spec (l : List Chunk) (g : AggDoc) :
    (l.foldl bump g).source = g.source
    ∧ (l.foldl bump g).chunks = g.chunks + l.length
    ∧ (l.foldl bump g).totalSize = g.totalSize + (l.map (fun c => c.page_content_length)).sum
    ∧ (l.foldl bump g).chunksList = g.chunksList ++ l := by
  induction l generalizing g with
  | nil => simp
  | cons c t ih =>
    rw [List.foldl_cons]
    obtain ⟨h1, h2, h3, h4⟩ := ih (bump g c)
    refine ⟨h1, ?_, ?_, ?_⟩
    · rw [h2]; simp [bump]; omega
    · rw [h3]; simp [bump]; omega
    · rw [h4]; simp [bump]

/-- The key set of the aggregation is duplicate-free. -/
theorem aggregate_sources_nodup (cs : List Chunk) :
    ((aggregate cs).map (fun g => g.source)).Nodup :=
  (sources_foldl_step cs [] (by simp)).1

/-- The aggregation's key set is exactly the set of sources occurring in the
chunk list. -/
theorem aggregate_sources_mem (cs : List Chunk) (s : String) :
    s ∈ (aggregate cs).map (fun g => g.source) ↔ s ∈ cs.map (fun c => c.source) := by
  have h := (sources_foldl_step cs [] (by simp)).2 s
  simpa using h

/-- Every entry of the aggregation carries exactly the statistics of the chunks
sharing its source: count, summed size, and the chunk subsequence in encounter
order. -/
theorem aggregate_mem_spec (cs : List Chunk) (g : AggDoc) (hg : g ∈ aggregate cs) :
    g.chunks = (cs.filter (fun c => c.source == g.source)).length
    ∧ g.totalSize
        = ((cs.filter (fun c => c.source == g.source)).map
            (fun c => c.page_content_length)).sum
    ∧ g.chunksList = cs.filter (fun c => c.source == g.source) := by
  have h1 := aggregate_sources_nodup cs
  have hfind : (aggregate cs).find? (fun x => x.source == g.source) = some g :=
    find?_eq_self_of_nodup (aggregate cs) h1 g hg
  have hchar' : some g =
      match cs.filter (fun c => c.source == g.source) with
      | [] => none
      | d :: ds => some ((d :: ds).foldl bump (emptyAgg g.source)) := by
    rw [← hfind]
    exact find?_foldl_step cs [] g.source
  cases hfil : cs.filter (fun c => c.source == g.source) with
  | nil =>
    rw [hfil] at hchar'
    exact absurd hchar' (by simp)
  | cons d ds =>
    rw [hfil] at hchar'
    have hge : g = (d :: ds).foldl bump (emptyAgg g.source) := by
      simpa using hchar'
    obtain ⟨hs, hc, ht, hl⟩ := foldl_bump_spec (d :: ds) (emptyAgg g.source)
    refine ⟨?_, ?_, ?_⟩
    · have hx : g.chunks = (d :: ds).length := by
        conv_lhs => rw [hge]
        rw [hc]
        simp [emptyAgg]
      rw [hx]
    · have hx : g.totalSize = ((d :: ds).map (fun c => c.page_content_length)).sum := by
        conv_lhs => rw [hge]
        rw [ht]
        simp [emptyAgg]
      rw [hx]
    · have hx : g.chunksList = d :: ds := by
        conv_lhs => rw [hge]
        rw [hl]
        simp [emptyAgg]
      rw [hx]

/-- C1: For every chunk list, the aggregation yields exactly one entry per
distinct source (its key set is duplicate-free and coincides with the sources
present, so there are K entries for K distinct sources), and each entry's
`chunks` count equals the number of records sharing its source while its
`totalSize` equals the sum of their `page_content_length`s. -/
theorem aggregate_groups_by_source (cs : List Chunk) :
    ((aggregate cs).map (fun g => g.source)).Nodup
    ∧ (∀ s, s ∈ (aggregate cs).map (fun g => g.source) ↔ s ∈ cs.map (fun c => c.source))
    ∧ (aggregate cs).length = (cs.map (fun c => c.source)).dedup.length
    ∧ ∀ g ∈ aggregate cs,
        g.chunks = (cs.filter (fun c => c.source == g.source)).length
        ∧ g.totalSize
            = ((cs.filter (fun c => c.source == g.source)).map
                (fun c => c.page_content_length)).sum := by
  have h1 := aggregate_sources_nodup cs
  have h2 := aggregate_sources_mem cs
  refine ⟨h1, h2, ?_, ?_⟩
  · have hperm : List.Perm ((aggregate cs).map (fun g => g.source))
        ((cs.map (fun c => c.source)).dedup) := by
      refine (List.perm_ext_iff_of_nodup h1 (List.nodup_dedup _)).2 ?_
      intro s
      rw [h2 s, List.mem_dedup]
    have := hperm.length_eq
    rwa [List.length_map] at this
  · intro g hg
    exact ⟨(aggregate_mem_spec cs g hg).1, (aggregate_mem_spec cs g hg).2.1⟩

/-- Witness for C1 at the spec's own example list
`[{a.pdf,100}, {a.pdf,200}, {b.txt,50}]`: the first aggregated entry counts
2 chunks totalling 300 bytes. -/
theorem aggregate_groups_by_source_witness :
    ({ source := "a.pdf", chunks := 2, totalSize := 300, lastUpdate := 2,
       chunksList := [⟨"a.pdf", none, 100, none, 1⟩, ⟨"a.pdf", none, 200, none, 2⟩] }
        : AggDoc).chunks
      = (([⟨"a.pdf", none, 100, none, 1⟩, ⟨"a.pdf", none, 200, none, 2⟩,
           ⟨"b.txt", none, 50, none, 3⟩] : List Chunk).filter
          (fun c => c.source == "a.pdf")).length
    ∧ ({ source := "a.pdf", chunks := 2, totalSize := 300, lastUpdate := 2,
         chunksList := [⟨"a.pdf", none, 100, none, 1⟩, ⟨"a.pdf", none, 200, none, 2⟩] }
          : AggDoc).totalSize
      = ((([⟨"a.pdf", none, 100, none, 1⟩, ⟨"a.pdf", none, 200, none, 2⟩,
            ⟨"b.txt", none, 50, none, 3⟩] : List Chunk).filter
           (fun c => c.source == "a.pdf")).map (fun c => c.page_content_length)).sum :=
  (aggregate_groups_by_source
    [⟨"a.pdf", none, 100, none, 1⟩, ⟨"a.pdf", none, 200, none, 2⟩,
     ⟨"b.txt", none, 50, none, 3⟩]).2.2.2
    { source := "a.pdf", chunks := 2, totalSize := 300, lastUpdate := 2,
      chunksList := [⟨"a.pdf", none, 100, none, 1⟩, ⟨"a.pdf", none, 200, none, 2⟩] }
    (by decide)

/-- C9 counterexample: two chunks of the same source arriving with
`chunk_index` 2 then 1 are kept in that arrival order inside the aggregated
entry — the chunks sequence is not sorted by `chunk_index` ascending. -/
theorem chunksList_not_sorted_by_index_cex :
    ((aggregate [⟨"a.pdf", some 2, 10, none, 1⟩, ⟨"a.pdf", some 1, 20, none, 2⟩]).map
        (fun g => g.chunksList.map (fun c => c.chunk_index.getD 0)))
      = [[2, 1]]
    ∧ ¬ ((2 : Int) ≤ 1) := by
  refine ⟨by decide, by decide⟩

/-- C9 (amended): within every aggregated entry the chunks sequence is the
subsequence of the ingest list sharing that source, in encounter order (the
reduce pushes each chunk to `chunksList` as it is visited and never sorts it). -/
theorem chunksList_encounter_order (cs : List Chunk) (g : AggDoc)
    (hg : g ∈ aggregate cs) :
    g.chunksList = cs.filter (fun c => c.source == g.source) :=
  (aggregate_mem_spec cs g hg).2.2

/-- Witness for the amended C9 at the spec's example list, on the `b.txt`
entry. -/
theorem chunksList_encounter_order_witness :
    ({ source := "b.txt", chunks := 1, totalSize := 50, lastUpdate := 3,
       chunksList := [⟨"b.txt", none, 50, none, 3⟩] } : AggDoc).chunksList
      = ([⟨"a.pdf", none, 100, none, 1⟩, ⟨"a.pdf", none, 200, none, 2⟩,
          ⟨"b.txt", none, 50, none, 3⟩] : List Chunk).filter
          (fun c => c.source == "b.txt") :=
  chunksList_encounter_order
    [⟨"a.pdf", none, 100, none, 1⟩, ⟨"a.pdf", none, 200, none, 2⟩,
     ⟨"b.txt", none, 50, none, 3⟩]
    { source := "b.txt", chunks := 1, totalSize := 50, lastUpdate := 3,
      chunksList := [⟨"b.txt", none, 50, none, 3⟩] }
    (by decide)

/-- ASCII lowercasing of one character, modelling what
`String.prototype.toLowerCase` does on the ASCII range. -/
def lowerChar (c : Char) : Char :=
  if 65 ≤ c.toNat && c.toNat ≤ 90 then Char.ofNat (c.toNat + 32) else c

/-- Lowercasing of a whole string (`value.toLowerCase()` /
`doc.source.toLowerCase()`). -/
def lowerStr (s : String) : String := String.mk (s.data.map lowerChar)

/-- Whether the first char list starts the second. -/
def isPrefixB : List Char → List Char → Bool
  | [], _ => true
  | _ :: _, [] => false
  | a :: as, b :: bs => a == b && isPrefixB as bs

/-- Whether the first char list occurs contiguously inside the second. -/
def isInfixB : List Char → List Char → Bool
  | n, [] => n.isEmpty
  | n, c :: t => isPrefixB n (c :: t) || isInfixB n t

/-- JS `hay.includes(needle)` (substring containment). -/
def jsIncludes (hay needle : String) : Bool := isInfixB needle.data hay.data

/-- The search filter of `renderDocuments` (`document_manager.js` lines 95 and
110-112) and of `renderList` (`part_000` lines 171 and 178): the search value
is lowercased once; a truthy (non-empty) term keeps exactly the aggregated
docs whose lowercased `source` contains it, and a falsy (empty) term leaves
the list untouched. -/
def filterDocs (searchValue : String) (docs : List AggDoc) : List AggDoc :=
  let term := lowerStr searchValue
  if term.isEmpty then docs
  else docs.filter (fun d => jsIncludes (lowerStr d.source) term)

/-- Insertion step of a stable descending sort keyed on `lastUpdate`: the new
element goes in front of the first entry whose key is not greater. -/
def insertDesc (g : AggDoc) : List AggDoc → List AggDoc
  | [] => [g]
  | h :: t => if h.lastUpdate ≤ g.lastUpdate then g :: h :: t else h :: insertDesc g t

/-- `documentsToRender.sort((a, b) => b.lastUpdate - a.lastUpdate)`
(`document_manager.js` line 114): JS `Array.prototype.sort` is stable, and
this comparator orders strictly by `lastUpdate` descending, so equal keys keep
their previous relative order; modelled as a stable insertion sort. -/
def sortDesc (l : List AggDoc) : List AggDoc := l.foldr insertDesc []

/-- The full view pipeline of `renderDocuments` (lines 95-114): aggregate,
filter by the search term, then sort by recency descending. -/
def renderDocsA (searchValue : String) (cs : List Chunk) : List AggDoc :=
  sortDesc (filterDocs searchValue (aggregate cs))

/-- Filtering twice with one predicate equals filtering once. -/
theorem filter_idem (p : AggDoc → Bool) (l : List AggDoc) :
    (l.filter p).filter p = l.filter p := by
  induction l with
  | nil => rfl
  | cons a t ih =>
    cases h : p a <;> simp [List.filter_cons, h, ih]

/-- C6: the search filter is a pure projection of the aggregated list — the
empty query is the identity, re-applying the same query is a no-op, the result
is a sublist of the input (nothing is altered or reordered, so the underlying
data is untouched), and membership is exactly case-insensitive substring match
of the query against `source`. -/
theorem search_filter_pure (q : String) (docs : List AggDoc) :
    filterDocs "" docs = docs
    ∧ filterDocs q (filterDocs q docs) = filterDocs q docs
    ∧ List.Sublist (filterDocs q docs) docs
    ∧ ∀ d, d ∈ filterDocs q docs ↔
        d ∈ docs ∧ ((lowerStr q).isEmpty = true
          ∨ jsIncludes (lowerStr d.source) (lowerStr q) = true) := by
  have hempty : (lowerStr "").isEmpty = true := by decide
  refine ⟨by simp [filterDocs, hempty], ?_, ?_, ?_⟩
  · unfold filterDocs
    cases h : (lowerStr q).isEmpty <;> simp [h, filter_idem]
  · unfold filterDocs
    cases h : (lowerStr q).isEmpty <;> simp [h, List.filter_sublist]
  · intro d
    unfold filterDocs
    cases h : (lowerStr q).isEmpty <;> simp [h, List.mem_filter]

/-- Membership in an insertion step. -/
theorem mem_insertDesc (g x : AggDoc) (l : List AggDoc) :
    x ∈ insertDesc g l ↔ x = g ∨ x ∈ l := by
  induction l with
  | nil => simp [insertDesc]
  | cons h t ih =>
    by_cases hc : h.lastUpdate ≤ g.lastUpdate
    · simp [insertDesc, hc]
    · simp [insertDesc, hc, ih]
      tauto

/-- Inserting into a descending list keeps it descending. -/
theorem pairwise_insertDesc (g : AggDoc) (l : List AggDoc)
    (hl : l.Pairwise (fun a b => b.lastUpdate ≤ a.lastUpdate)) :
    (insertDesc g l).Pairwise (fun a b => b.lastUpdate ≤ a.lastUpdate) := by
  induction l with
  | nil => simp [insertDesc]
  | cons h t ih =>
    rw [List.pairwise_cons] at hl
    by_cases hc : h.lastUpdate ≤ g.lastUpdate
    · rw [insertDesc, if_pos hc]
      refine List.Pairwise.cons ?_ (List.Pairwise.cons hl.1 hl.2)
      intro b hb
      rcases List.mem_cons.1 hb with hb | hb
      · exact hb ▸ hc
      · exact le_trans (hl.1 b hb) hc
    · rw [insertDesc, if_neg hc]
      refine List.Pairwise.cons ?_ (ih hl.2)
      intro b hb
      rcases (mem_insertDesc g b t).1 hb with hb | hb
      · exact hb ▸ le_of_lt (lt_of_not_le hc)
      · exact hl.1 b hb
    
/-- The modelled JS sort always yields a list descending in `lastUpdate`. -/
theorem sortDesc_pairwise (l : List AggDoc) :
    (sortDesc l).Pairwise (fun a b => b.lastUpdate ≤ a.lastUpdate) := by
  induction l with
  | nil => exact List.Pairwise.nil
  | cons a t ih =>
    rw [sortDesc, List.foldr_cons]
    exact pairwise_insertDesc a _ ih

/-- C5 counterexample: two sources with the same `lastUpdate` render in their
aggregation (first-encounter) order `["b.txt", "a.txt"]`, although
lexicographic order of the sources is `"a.txt" < "b.txt"` — the comparator
`(a, b) => b.lastUpdate - a.lastUpdate` breaks no ties lexicographically. -/
theorem sort_tie_not_lex_cex :
    ((renderDocsA "" [⟨"b.txt", none, 1, none, 5⟩, ⟨"a.txt", none, 1, none, 5⟩]).map
        (fun g => g.source)) = ["b.txt", "a.txt"]
    ∧ ((renderDocsA "" [⟨"b.txt", none, 1, none, 5⟩, ⟨"a.txt", none, 1, none, 5⟩]).map
        (fun g => g.lastUpdate)) = [5, 5]
    ∧ ("a.txt").data < ("b.txt").data := by
  refine ⟨by decide, by decide, by decide⟩

/-- C5 (amended): the rendered list is ordered by `lastUpdate` descending —
equal keys keep their aggregation order rather than being broken
lexicographically — and in particular documents with `lastUpdate` values
`[5, 9, 2]` render in order `[9, 5, 2]`. -/
theorem render_sorted_by_recency :
    (∀ q cs, (renderDocsA q cs).Pairwise (fun a b => b.lastUpdate ≤ a.lastUpdate))
    ∧ ((renderDocsA ""
          [⟨"x.pdf", none, 1, none, 5⟩, ⟨"y.pdf", none, 1, none, 9⟩,
           ⟨"z.pdf", none, 1, none, 2⟩]).map (fun g => g.lastUpdate)) = [9, 5, 2] := by
  constructor
  · intro q cs
    exact sortDesc_pairwise _
  · decide

/-- Notification kinds accepted by `showNotification` / `notify`. -/
inductive NotifKind where
  | success
  | error
  | info
deriving DecidableEq

/-- A queued notification: message text plus kind. -/
structure Notif where
  msg : String
  kind : NotifKind
deriving DecidableEq

/-- Body of a successful JSON response from the write endpoints:
`{ success, message }`. -/
structure ApiResult where
  success : Bool
  message : String
deriving DecidableEq

/-- The two destructive action kinds of `openModal` (`'remove'` / `'clear'`). -/
inductive ActionType where
  | remove
  | clear
deriving DecidableEq

/-- The v2 `pendingAction` object `{ type: actionType, source }`
(`document_manager.js` line 242); `source` is `null` for clear-all. -/
structure PendingA where
  type : ActionType
  source : Option String
deriving DecidableEq

/-- A network request issued by the destructive-action flow. -/
inductive Request where
  | removeReq (source : Option String)
  | clearReq
deriving DecidableEq

/-- State of the v2 variant (`document_manager.js`): the module-level
`allChunks` and `pendingAction`, plus `inFlight`, which marks the suspension
of `executeAction` between issuing its `fetch` and receiving the response
(the `Executing` phase of the spec's state machine). -/
structure StateA where
  allChunks : List Chunk
  pendingAction : Option PendingA
  inFlight : Bool
deriving DecidableEq

/-- `openModal('confirmModal', …, actionType, source)`
(`document_manager.js` lines 239-247): unconditionally installs
`pendingAction = { type, source }`.  There is no guard on an in-flight
request or an existing pending action. -/
def openModalConfirmA (type : ActionType) (source : Option String)
    (s : StateA) : StateA :=
  { s with pendingAction := some { type := type, source := source } }

/-- `confirmRemoveDocument(source)` (lines 217-226). -/
def confirmRemoveDocumentA (source : String) (s : StateA) : StateA :=
  openModalConfirmA ActionType.remove (some source) s

/-- `confirmClearAll()` (lines 228-237). -/
def confirmClearAllA (s : StateA) : StateA :=
  openModalConfirmA ActionType.clear none s

/-- `closeModal('confirmModal')` (lines 249-252): clears `pendingAction`. -/
def closeConfirmA (s : StateA) : StateA :=
  { s with pendingAction := none }

/-- First half of `executeAction` (lines 254-268), up to the `await`: bail out
when no action is pending; otherwise capture and clear the pending action,
close the modal, and issue the matching request.  `allChunks` is untouched —
this variant performs no optimistic mutation. -/
def executeActionStartA (s : StateA) : StateA × Option Request :=
  match s.pendingAction with
  | none => (s, none)
  | some pa =>
    ({ s with pendingAction := none, inFlight := true },
     some (match pa.type with
           | ActionType.remove => Request.removeReq pa.source
           | ActionType.clear => Request.clearReq))

/-- Effects of completing a write in the v2 variant: notifications enqueued
plus whether `refreshDocuments` (a full resync) is scheduled. -/
structure WriteEffects where
  notifs : List Notif
  resync : Bool
deriving DecidableEq

/-- Second half of `executeAction` (lines 270-276), after the `await`:
`result` is `null` when `fetchData` failed (it already notified); otherwise a
notification with the server message is shown with kind chosen by `success`,
and only on success is `refreshDocuments` scheduled (`setTimeout(..., 300)`). -/
def executeActionFinishA (result : Option ApiResult) (s : StateA) :
    StateA × WriteEffects :=
  ({ s with inFlight := false },
   match result with
   | none => { notifs := [], resync := false }
   | some r =>
     { notifs := [{ msg := r.message,
                    kind := if r.success then NotifKind.success else NotifKind.error }],
       resync := r.success })

/-- State of the v4.0 variant (`part_000`): the closure-level `chunks` and
`pendingSrc`, plus `inFlight` marking the suspension of `executeDeletion`
between its `api` call and the response. -/
structure StateB where
  chunks : List Chunk
  pendingSrc : Option String
  inFlight : Bool
deriving DecidableEq

/-- `openConfirmModal(source)` (`part_000` lines 81-89): unconditionally sets
`pendingSrc = source` and shows the confirm panel; no guard exists on an
in-flight deletion. -/
def openConfirmModalB (source : String) (s : StateB) : StateB :=
  { s with pendingSrc := some source }

/-- `closeConfirm()` (lines 91-95): clears `pendingSrc`. -/
def closeConfirmB (s : StateB) : StateB :=
  { s with pendingSrc := none }

/-- First half of `executeDeletion` (lines 97-109), up to the `await`:
`if (!pendingSrc) return` bails out on any falsy `pendingSrc` — both `null`
(nothing pending) and the empty string (a pending source `''` is falsy in
JS); otherwise capture the source, close the modal, optimistically excise
every chunk of that source from `chunks`
(`chunks = chunks.filter(c => c.source !== src)`), re-render, and issue the
remove request. -/
def executeDeletionStartB (s : StateB) : StateB × Option Request :=
  match s.pendingSrc with
  | none => (s, none)
  | some src =>
    if src = "" then (s, none)
    else
      ({ chunks := s.chunks.filter (fun c => !(c.source == src)),
         pendingSrc := none,
         inFlight := true },
       some (Request.removeReq (some src)))

/-- Second half of `executeDeletion` (lines 110-115): a response with
`success` keeps the optimistic state and notifies with the server message;
otherwise (`!res?.success`, including a `null` from `api`) an error
notification `'Deletion failed: ' + (res?.message || 'Unknown error')` is
shown and `refreshList()` re-fetches the authoritative list. -/
def executeDeletionFinishB (res : Option ApiResult) (s : StateB) :
    StateB × WriteEffects :=
  ({ s with inFlight := false },
   match res with
   | some r =>
     if r.success then { notifs := [{ msg := r.message, kind := NotifKind.success }], resync := false }
     else
       { notifs := [{ msg := "Deletion failed: "
                        ++ (if r.message = "" then "Unknown error" else r.message),
                      kind := NotifKind.error }],
         resync := true }
   | none =>
     { notifs := [{ msg := "Deletion failed: Unknown error", kind := NotifKind.error }],
       resync := true })

/-- Whether an HTTP status counts as `response.ok` (2xx). -/
def jsOk (status : Nat) : Bool := 200 ≤ status && status ≤ 299

/-- Outcome of a `fetch` as seen by the v2 `fetchData`: a thrown transport
error carrying a message, or a response with status, `statusText` and parsed
body. -/
inductive FetchResultA where
  | fail (msg : String)
  | resp (status : Nat) (statusText : String) (body : ApiResult)
deriving DecidableEq

/-- `fetchData` (`document_manager.js` lines 54-64): every non-ok response is
turned into the one generic message
`'Network response was not ok: ' + statusText`, an error notification
`'Error: ' + message` is shown, and `null` is returned; no status is treated
specially and nothing is retried. -/
def fetchDataA (r : FetchResultA) : Option ApiResult × List Notif :=
  match r with
  | FetchResultA.fail m =>
    (none, [{ msg := "Error: " ++ m, kind := NotifKind.error }])
  | FetchResultA.resp status statusText body =>
    if jsOk status then (some body, [])
    else (none, [{ msg := "Error: Network response was not ok: " ++ statusText,
                   kind := NotifKind.error }])

/-- Body of a JSON response as seen by the v4.0 `api` helper: `{ success,
message }` plus the optional `error` field it inspects. -/
structure ApiBody where
  success : Bool
  message : String
  error : Option String
deriving DecidableEq

/-- Outcome of a `fetch` as seen by the v4.0 `api` helper. -/
inductive FetchResultB where
  | fail (msg : String)
  | resp (status : Nat) (body : ApiBody)
deriving DecidableEq

/-- `api` (`part_000` lines 149-160): statuses 401 and 403 raise the distinct
message `'Access denied: admin rights required'`; any other non-ok status
raises `'HTTP ' + status`; an ok body whose `error` field contains
`'Access denied'` raises that text.  Every raised message is shown as an
error notification and `null` is returned — the request is never retried. -/
def apiB (r : FetchResultB) : Option ApiBody × List Notif :=
  match r with
  | FetchResultB.fail m => (none, [{ msg := m, kind := NotifKind.error }])
  | FetchResultB.resp status body =>
    if jsOk status then
      match body.error with
      | some e =>
        if jsIncludes e "Access denied" then (none, [{ msg := e, kind := NotifKind.error }])
        else (some body, [])
      | none => (some body, [])
    else
      if status == 401 || status == 403 then
        (none, [{ msg := "Access denied: admin rights required", kind := NotifKind.error }])
      else
        (none, [{ msg := "HTTP " ++ toString status, kind := NotifKind.error }])

/-- A JS number as it flows out of `total / docs.length`: `NaN`, `Infinity`,
or an exact value. -/
inductive JsNum where
  | nan
  | inf
  | num (x : ℚ)
deriving DecidableEq

/-- JS division of two non-negative integers: dividing by zero yields `NaN`
for `0 / 0` and `Infinity` otherwise; no fault is ever raised. -/
def jsDivNat (a b : Nat) : JsNum :=
  if b = 0 then (if a = 0 then JsNum.nan else JsNum.inf)
  else JsNum.num ((a : ℚ) / (b : ℚ))

/-- JS falsiness of a number: `0` and `NaN` are falsy. -/
def JsNum.falsy : JsNum → Bool
  | JsNum.nan => true
  | JsNum.inf => false
  | JsNum.num x => x == 0

/-- The `if (!b) return '0 Bytes'` guard of `bytes` (`part_000` lines 11-15):
a falsy argument (0 or NaN) yields the literal `'0 Bytes'`.  The other branch
formats a non-zero quantity through floating-point `Math.log` / `toFixed`,
never displaying zero; that branch is outside this embedding and is
represented by `none`. -/
def bytesZeroDisplay (b : JsNum) : Option String :=
  if b.falsy then some "0 Bytes" else none

/-- `chunks.filter(c => c.source === source)` of `showInfoPanel` (line 120). -/
def infoDocs (cs : List Chunk) (source : String) : List Chunk :=
  cs.filter (fun c => c.source == source)

/-- `docs.reduce((s, c) => s + c.page_content_length, 0)` (line 121). -/
def infoTotal (docs : List Chunk) : Nat :=
  docs.foldl (fun s c => s + c.page_content_length) 0

/-- The content computed by `showInfoPanel` (`part_000` lines 119-141):
per-source statistics, the average size fed to `bytes` as the raw division
`total / docs.length`, the preview of `docs.slice(0, 5)` with each item's
`chunk_index ?? 0` and `preview || ''`, and the `…and N more` note shown
exactly when `docs.length > 5`. -/
structure InfoPanel where
  source : String
  totalChunks : Nat
  totalSize : Nat
  avg : JsNum
  previewItems : List (Int × String)
  moreNote : Option Nat
deriving DecidableEq

/-- `showInfoPanel(source)` (`part_000` lines 119-141) as a pure view
computation. -/
def showInfoPanelB (cs : List Chunk) (source : String) : InfoPanel :=
  { source := source
    totalChunks := (infoDocs cs source).length
    totalSize := infoTotal (infoDocs cs source)
    avg := jsDivNat (infoTotal (infoDocs cs source)) (infoDocs cs source).length
    previewItems := ((infoDocs cs source).take 5).map
      (fun c => (c.chunk_index.getD 0, c.preview.getD ""))
    moreNote := if 5 < (infoDocs cs source).length
      then some ((infoDocs cs source).length - 5) else none }

/-- C8: the info panel is division-safe — with zero matching chunks the
average is the total JS division result `NaN`, which the `bytes` zero-guard
displays as `'0 Bytes'` — and the preview is bounded by the first 5 chunks
with the `…and N more` note present exactly when more than 5 exist. -/
theorem showInfoPanel_safe (cs : List Chunk) (source : String) :
    ((showInfoPanelB cs source).totalChunks = 0 →
      (showInfoPanelB cs source).avg = JsNum.nan
      ∧ bytesZeroDisplay (showInfoPanelB cs source).avg = some "0 Bytes")
    ∧ (showInfoPanelB cs source).previewItems.length ≤ 5
    ∧ (5 < (showInfoPanelB cs source).totalChunks →
        (showInfoPanelB cs source).moreNote
          = some ((showInfoPanelB cs source).totalChunks - 5))
    ∧ ((showInfoPanelB cs source).totalChunks ≤ 5 →
        (showInfoPanelB cs source).moreNote = none) := by
  refine ⟨?_, ?_, ?_, ?_⟩
  · intro h0
    have hdocs : infoDocs cs source = [] := by
      have : (infoDocs cs source).length = 0 := h0
      exact List.length_eq_zero.1 this
    have havg : (showInfoPanelB cs source).avg = JsNum.nan := by
      simp [showInfoPanelB, hdocs, infoTotal, jsDivNat]
    exact ⟨havg, by rw [havg]; rfl⟩
  · have : (showInfoPanelB cs source).previewItems.length
        = ((infoDocs cs source).take 5).length := by
      simp [showInfoPanelB]
    rw [this, List.length_take]
    omega
  · intro h5
    have h5' : 5 < (infoDocs cs source).length := h5
    simp [showInfoPanelB, h5']
  · intro h5
    have h5' : ¬ 5 < (infoDocs cs source).length := by
      simp only [not_lt]
      exact h5
    simp [showInfoPanelB, h5']

/-- Witness for C8 on an empty chunk list: the panel for `"ghost.pdf"` shows
the `'0 Bytes'` average and no overflow note. -/
theorem showInfoPanel_safe_witness :
    ((showInfoPanelB [] "ghost.pdf").avg = JsNum.nan
      ∧ bytesZeroDisplay (showInfoPanelB [] "ghost.pdf").avg = some "0 Bytes")
    ∧ (showInfoPanelB [] "ghost.pdf").moreNote = none :=
  ⟨(showInfoPanel_safe [] "ghost.pdf").1 (by decide),
   (showInfoPanel_safe [] "ghost.pdf").2.2.2 (by decide)⟩

/-- C10: invoking the confirm-execution entry point with no pending action is
a complete no-op in both variants — the state (chunk list included) is
returned unchanged and no request is issued. -/
theorem execute_noop_without_pending :
    (∀ s : StateA, s.pendingAction = none → executeActionStartA s = (s, none))
    ∧ (∀ s : StateB, s.pendingSrc = none → executeDeletionStartB s = (s, none)) := by
  constructor
  · intro s h
    simp [executeActionStartA, h]
  · intro s h
    simp [executeDeletionStartB, h]

/-- Witness for C10 at concrete idle states of both variants. -/
theorem execute_noop_without_pending_witness :
    executeActionStartA { allChunks := [⟨"a.pdf", none, 7, none, 1⟩],
                          pendingAction := none, inFlight := false }
      = ({ allChunks := [⟨"a.pdf", none, 7, none, 1⟩],
           pendingAction := none, inFlight := false }, none)
    ∧ executeDeletionStartB { chunks := [⟨"a.pdf", none, 7, none, 1⟩],
                              pendingSrc := none, inFlight := false }
      = ({ chunks := [⟨"a.pdf", none, 7, none, 1⟩],
           pendingSrc := none, inFlight := false }, none) :=
  ⟨execute_noop_without_pending.1
      { allChunks := [⟨"a.pdf", none, 7, none, 1⟩],
        pendingAction := none, inFlight := false } rfl,
   execute_noop_without_pending.2
      { chunks := [⟨"a.pdf", none, 7, none, 1⟩],
        pendingSrc := none, inFlight := false } rfl⟩

/-- C2 counterexample: from a state whose deletion request is still in flight
(`inFlight = true`, the `Executing` phase), a new destructive-action request
is accepted, not rejected — both `openConfirmModal` (v4.0) and
`confirmRemoveDocument`/`openModal` (v2) install a fresh pending action. -/
theorem openConfirm_during_flight_accepted_cex :
    (openConfirmModalB "x.pdf"
        { chunks := [], pendingSrc := none, inFlight := true }).pendingSrc = some "x.pdf"
    ∧ (openConfirmModalB "x.pdf"
        { chunks := [], pendingSrc := none, inFlight := true }).inFlight = true
    ∧ (confirmRemoveDocumentA "x.pdf"
        { allChunks := [], pendingAction := none, inFlight := true }).pendingAction
      = some { type := ActionType.remove, source := some "x.pdf" }
    ∧ (confirmRemoveDocumentA "x.pdf"
        { allChunks := [], pendingAction := none, inFlight := true }).inFlight = true :=
  ⟨rfl, rfl, rfl, rfl⟩

/-- C2 (amended): there is a single pending-action slot, so at most one
pending action exists at any instant by construction (opening overwrites it,
closing clears it); but opening a confirmation is unconditional — in
particular while a destructive action is executing (`inFlight` unchanged and
possibly `true`), the new request is accepted and installs a fresh pending
action rather than being rejected. -/
theorem pending_slot_unconditional :
    (∀ (s : StateB) (src : String),
      (openConfirmModalB src s).pendingSrc = some src
      ∧ (openConfirmModalB src s).inFlight = s.inFlight
      ∧ (openConfirmModalB src s).chunks = s.chunks)
    ∧ (∀ (s : StateA) (ty : ActionType) (osrc : Option String),
      (openModalConfirmA ty osrc s).pendingAction
        = some { type := ty, source := osrc }
      ∧ (openModalConfirmA ty osrc s).inFlight = s.inFlight
      ∧ (openModalConfirmA ty osrc s).allChunks = s.allChunks) :=
  ⟨fun _ _ => ⟨rfl, rfl, rfl⟩, fun _ _ _ => ⟨rfl, rfl, rfl⟩⟩

/-- C3 counterexample: in the v2 `executeAction`, a failing server response
(`success: false`, message `"boom"`) enqueues the error notification but
schedules no resync at all — `refreshDocuments` runs only on success. -/
theorem executeAction_failure_no_resync_cex :
    (executeActionFinishA (some { success := false, message := "boom" })
        { allChunks := [⟨"a.pdf", none, 1, none, 1⟩],
          pendingAction := none, inFlight := true }).2
      = { notifs := [{ msg := "boom", kind := NotifKind.error }], resync := false } :=
  rfl

/-- C3 (amended): on a failing server response to a confirmed delete, the
v4.0 `executeDeletion` forces a full resync and enqueues
`'Deletion failed: ' + message` (falling back to `'Unknown error'` for an
empty message), whereas the v2 `executeAction` enqueues the server message as
an error notification but performs no resync (it also made no optimistic
change to roll back). -/
theorem delete_failure_resync_variants (s : StateB) (sA : StateA)
    (r : ApiResult) (hr : r.success = false) :
    (executeDeletionFinishB (some r) s).2.resync = true
    ∧ (executeDeletionFinishB (some r) s).2.notifs
        = [{ msg := "Deletion failed: "
               ++ (if r.message = "" then "Unknown error" else r.message),
             kind := NotifKind.error }]
    ∧ (executeActionFinishA (some r) sA).2.resync = false
    ∧ (executeActionFinishA (some r) sA).2.notifs
        = [{ msg := r.message, kind := NotifKind.error }] := by
  refine ⟨?_, ?_, ?_, ?_⟩ <;>
    simp [executeDeletionFinishB, executeActionFinishA, hr]

/-- Witness for the amended C3 at a concrete failing response. -/
theorem delete_failure_resync_variants_witness :
    (executeDeletionFinishB (some { success := false, message := "boom" })
        { chunks := [], pendingSrc := none, inFlight := true }).2.resync = true
    ∧ (executeDeletionFinishB (some { success := false, message := "boom" })
        { chunks := [], pendingSrc := none, inFlight := true }).2.notifs
        = [{ msg := "Deletion failed: "
               ++ (if ("boom" : String) = "" then "Unknown error" else "boom"),
             kind := NotifKind.error }]
    ∧ (executeActionFinishA (some { success := false, message := "boom" })
        { allChunks := [], pendingAction := none, inFlight := true }).2.resync = false
    ∧ (executeActionFinishA (some { success := false, message := "boom" })
        { allChunks := [], pendingAction := none, inFlight := true }).2.notifs
        = [{ msg := "boom", kind := NotifKind.error }] :=
  delete_failure_resync_variants
    { chunks := [], pendingSrc := none, inFlight := true }
    { allChunks := [], pendingAction := none, inFlight := true }
    { success := false, message := "boom" } rfl

/-- C4 counterexample: in the v2 `executeAction`, confirming the removal of
`"a.pdf"` leaves `allChunks` (still containing the `a.pdf` chunk) untouched
before the network call resolves — no optimistic excision happens — and a
successful response schedules a re-fetch instead of retaining the local
state. -/
theorem executeAction_not_optimistic_cex :
    (executeActionStartA
        { allChunks := [⟨"a.pdf", none, 100, none, 1⟩],
          pendingAction := some { type := ActionType.remove, source := some "a.pdf" },
          inFlight := false }).1.allChunks
      = [⟨"a.pdf", none, 100, none, 1⟩]
    ∧ (executeActionFinishA (some { success := true, message := "ok" })
        { allChunks := [⟨"a.pdf", none, 100, none, 1⟩],
          pendingAction := none, inFlight := true }).2.resync = true :=
  ⟨rfl, rfl⟩

/-- C4 (amended): the v4.0 `executeDeletion`, for a pending source that is
not the falsy empty string, excises all chunks of the confirmed source from
the store immediately, before the network call resolves (and this is its only
pre-completion mutation, the pending slot aside), and on success retains the
optimistic state with a success notification and no re-fetch; the v2
`executeAction` instead never mutates `allChunks` before completion and
re-fetches on success. -/
theorem optimistic_delete_variants :
    (∀ (s : StateB) (src : String), s.pendingSrc = some src → src ≠ "" →
      executeDeletionStartB s
        = ({ chunks := s.chunks.filter (fun c => !(c.source == src)),
             pendingSrc := none, inFlight := true },
           some (Request.removeReq (some src))))
    ∧ (∀ (s : StateB) (r : ApiResult), r.success = true →
      (executeDeletionFinishB (some r) s).1.chunks = s.chunks
      ∧ (executeDeletionFinishB (some r) s).2
          = { notifs := [{ msg := r.message, kind := NotifKind.success }],
              resync := false })
    ∧ (∀ s : StateA, (executeActionStartA s).1.allChunks = s.allChunks)
    ∧ (∀ (s : StateA) (r : ApiResult), r.success = true →
      (executeActionFinishA (some r) s).2.resync = true) := by
  refine ⟨?_, ?_, ?_, ?_⟩
  · intro s src h hne
    simp [executeDeletionStartB, h, hne]
  · intro s r h
    exact ⟨rfl, by simp [executeDeletionFinishB, h]⟩
  · intro s
    cases hp : s.pendingAction <;> simp [executeActionStartA, hp]
  · intro s r h
    simp [executeActionFinishA, h]

/-- Witness for the amended C4: confirming the removal of `"a.pdf"` from a
two-source store immediately filters out its chunk. -/
theorem optimistic_delete_variants_witness :
    executeDeletionStartB
        { chunks := [⟨"a.pdf", none, 100, none, 1⟩, ⟨"b.txt", none, 50, none, 2⟩],
          pendingSrc := some "a.pdf", inFlight := false }
      = ({ chunks := ([⟨"a.pdf", none, 100, none, 1⟩, ⟨"b.txt", none, 50, none, 2⟩]
              : List Chunk).filter (fun c => !(c.source == "a.pdf")),
           pendingSrc := none, inFlight := true },
         some (Request.removeReq (some "a.pdf"))) :=
  optimistic_delete_variants.1
    { chunks := [⟨"a.pdf", none, 100, none, 1⟩, ⟨"b.txt", none, 50, none, 2⟩],
      pendingSrc := some "a.pdf", inFlight := false } "a.pdf" rfl (by decide)

/-- C7 counterexample: the v2 `fetchData` surfaces an HTTP 401 exactly like an
HTTP 500 with the same status text — the one generic
`'Network response was not ok: …'` message, with no distinct access-denied
condition. -/
theorem fetchData_401_generic_cex :
    fetchDataA (FetchResultA.resp 401 "Unauthorized"
        { success := false, message := "" })
      = fetchDataA (FetchResultA.resp 500 "Unauthorized"
          { success := false, message := "" })
    ∧ fetchDataA (FetchResultA.resp 401 "Unauthorized"
        { success := false, message := "" })
      = (none, [{ msg := "Error: Network response was not ok: Unauthorized",
                  kind := NotifKind.error }]) :=
  ⟨rfl, rfl⟩

/-- C7 (amended): the v4.0 `api` helper surfaces every 401/403 response as
the distinct human-readable message `'Access denied: admin rights required'`
and returns `null` to its caller — the request is consumed once, with no
retry; the v2 `fetchData` instead folds all non-ok statuses into one generic
network-error message. -/
theorem apiB_access_denied (status : Nat) (body : ApiBody)
    (h : status = 401 ∨ status = 403) :
    apiB (FetchResultB.resp status body)
      = (none, [{ msg := "Access denied: admin rights required",
                  kind := NotifKind.error }]) := by
  rcases h with h | h <;> subst h <;> rfl

/-- Witness for the amended C7 at a concrete 401 response. -/
theorem apiB_access_denied_witness :
    apiB (FetchResultB.resp 401 { success := false, message := "", error := none })
      = (none, [{ msg := "Access denied: admin rights required",
                  kind := NotifKind.error }]) :=
  apiB_access_denied 401 { success := false, message := "", error := none }
    (Or.inl rfl)
